import Mathlib

/-!
Shallow embedding of the extraction-merge-synthesis core of the grant
documentation crawler (src/utils.py, src/documentation_analyzer.py,
src/pdf_processor.py, src/web_scraper.py, src/config.py), together with
theorems settling the frozen claims about it.

Python strings are modelled as Lean `String` (lists of unicode
characters); Python `len` is character count, matching `String.length`.
Python dicts are modelled as association lists in insertion order
(updating an existing key keeps its position, as CPython dicts do).
-/

namespace GrantDoc

/-- Characters matched by Python's regex `\s` on `str` patterns
(space, tab, newline, carriage return, vertical tab, form feed and
the non-breaking space U+00A0; more exotic unicode whitespace is not
modelled since no claim involves it). -/
def isPySpace (c : Char) : Bool :=
  c = ' ' || c = '\t' || c = '\n' || c = '\r' ||
  c = Char.ofNat 11 || c = Char.ofNat 12 || c = Char.ofNat 160

/-- Python `str.lower` restricted to ASCII and the Latin-1 letter block
(the only characters appearing in the repository's keyword tables). -/
def pyLowerChar (c : Char) : Char :=
  if 'A' ≤ c ∧ c ≤ 'Z' then Char.ofNat (c.toNat + 32)
  else if Char.ofNat 0xC0 ≤ c ∧ c ≤ Char.ofNat 0xDE ∧ c ≠ Char.ofNat 0xD7 then
    Char.ofNat (c.toNat + 32)
  else c

/-- Python `str.upper` on the same restricted alphabet. -/
def pyUpperChar (c : Char) : Char :=
  if 'a' ≤ c ∧ c ≤ 'z' then Char.ofNat (c.toNat - 32)
  else if Char.ofNat 0xE0 ≤ c ∧ c ≤ Char.ofNat 0xFE ∧ c ≠ Char.ofNat 0xF7 then
    Char.ofNat (c.toNat - 32)
  else c

/-- Python `s.lower()`. -/
def pyLower (s : String) : String := ⟨s.data.map pyLowerChar⟩

/-- Python `s.capitalize()`: first character uppercased, the rest lowercased. -/
def pyCapitalize (s : String) : String :=
  match s.data with
  | [] => ""
  | c :: cs => ⟨pyUpperChar c :: cs.map pyLowerChar⟩

/-- `needleIn n h` is Python's substring test of `n` in `h`
(empty needle is contained in everything). -/
def needleIn (n : List Char) : List Char → Bool
  | [] => n.isEmpty
  | c :: cs => n.isPrefixOf (c :: cs) || needleIn n cs

/-- Python `n in h` on strings. -/
def strContains (h n : String) : Bool := n.data.isPrefixOf h.data || needleIn n.data h.data

/-- Python `'\n'.join(parts)` (also used with other separators). -/
def joinSep (sep : String) : List String → String
  | [] => ""
  | [x] => x
  | x :: y :: xs => x ++ sep ++ joinSep sep (y :: xs)

/-- Strip `isPySpace` characters from both ends (Python `str.strip()`). -/
def pyStrip (l : List Char) : List Char :=
  ((l.dropWhile isPySpace).reverse.dropWhile isPySpace).reverse

/-- Replace each maximal run of whitespace by a single space
(the substitution `re.sub(r'\s+', ' ', text)`); the flag records whether
the previous character was part of a whitespace run. -/
def squeezeWS : Bool → List Char → List Char
  | _, [] => []
  | prevSpace, c :: cs =>
    if isPySpace c then
      if prevSpace then squeezeWS true cs else ' ' :: squeezeWS true cs
    else c :: squeezeWS false cs

/-- `normalize_whitespace` (src/utils.py lines 70-87): collapse whitespace
runs to one space, then strip the ends. -/
def normalize_whitespace (s : String) : String := ⟨pyStrip (squeezeWS false s.data)⟩

/-- The character-for-character unicode replacements of `clean_text`
(src/utils.py lines 46-50): curly quotes to ASCII quotes, en/em dash to
hyphen, non-breaking space to space; U+2022 is replaced by itself. -/
def uniReplace (c : Char) : Char :=
  if c = Char.ofNat 0x2018 ∨ c = Char.ofNat 0x2019 then '\''
  else if c = Char.ofNat 0x201C ∨ c = Char.ofNat 0x201D then '"'
  else if c = Char.ofNat 0x2013 ∨ c = Char.ofNat 0x2014 then '-'
  else if c = Char.ofNat 0xA0 then ' '
  else c

/-- The bullet character U+2022. -/
def bulletChar : Char := Char.ofNat 0x2022

/-- Scanner state of the double-bullet rule: plain scanning, a bullet
and following whitespace consumed (held in the list, bullet included)
awaiting a bullet-like marker, or a completed match whose trailing
whitespace is being absorbed. -/
inductive FBState where
  | norm
  | pend (consumed : List Char)
  | tail
deriving DecidableEq, Repr

/-- One left-to-right, non-overlapping pass of the double-bullet rule
`re.sub` (a bullet, optional whitespace, one of bullet/hyphen/asterisk,
optional whitespace, replaced by a bullet and a space) as a
one-character state machine. -/
def fixBulletsGo : FBState → List Char → List Char
  | .norm, [] => []
  | .norm, c :: cs =>
    if c = bulletChar then fixBulletsGo (.pend [c]) cs else c :: fixBulletsGo .norm cs
  | .pend pend, [] => pend
  | .pend pend, c :: cs =>
    if isPySpace c then fixBulletsGo (.pend (pend ++ [c])) cs
    else if c = bulletChar ∨ c = '-' ∨ c = '*' then fixBulletsGo .tail cs
    else pend ++ c :: fixBulletsGo .norm cs
  | .tail, [] => [bulletChar, ' ']
  | .tail, c :: cs =>
    if isPySpace c then fixBulletsGo .tail cs
    else if c = bulletChar then bulletChar :: ' ' :: fixBulletsGo (.pend [c]) cs
    else bulletChar :: ' ' :: c :: fixBulletsGo .norm cs

/-- The double-bullet cleanup rule of `clean_text`. -/
def fixBullets (l : List Char) : List Char := fixBulletsGo .norm l

/-- Is `c` an ASCII capital (the class `[A-Z]`)? -/
def isCapAZ (c : Char) : Bool := 'A' ≤ c && c ≤ 'Z'

/-- Is `c` sentence punctuation (the class `[.!?]`)? -/
def isSentPunct (c : Char) : Bool := c = '.' || c = '!' || c = '?'

/-- The sentence-spacing rule `re.sub(r'([.!?])\s+([A-Z])', ...)` as a state machine:
`some (p, sp)` means sentence punctuation `p` and whitespace `sp` have
been consumed; an ASCII capital then completes the match (requiring at
least one whitespace character), anything else replays the consumed
text and rescans from the current character. -/
def fixSentGo : Option (Char × List Char) → List Char → List Char
  | none, [] => []
  | none, c :: cs =>
    if isSentPunct c then fixSentGo (some (c, [])) cs else c :: fixSentGo none cs
  | some (p, sp), [] => p :: sp
  | some (p, sp), c :: cs =>
    if isPySpace c then fixSentGo (some (p, sp ++ [c])) cs
    else if ¬sp.isEmpty ∧ isCapAZ c then p :: ' ' :: c :: fixSentGo none cs
    else (p :: sp) ++
      (if isSentPunct c then fixSentGo (some (c, [])) cs else c :: fixSentGo none cs)

/-- The sentence-spacing rule of `clean_text` (an identity after
whitespace normalization, modelled nonetheless). -/
def fixSentenceSpacing (l : List Char) : List Char := fixSentGo none l

/-- The punctuation class `[.!?,:;]` of the excessive-punctuation rule. -/
def isRunPunct (c : Char) : Bool :=
  c = '.' || c = '!' || c = '?' || c = ',' || c = ':' || c = ';'

/-- The punctuation-run rule `re.sub(r'([.!?,:;]){2,}', ...)` as a state machine:
`some p` remembers the most recent punctuation character of the current
run; when the run ends only that last character is emitted (group 1
captures the final repetition; a length-one run is emitted unchanged,
which coincides with emitting its last character). -/
def collapsePunctGo : Option Char → List Char → List Char
  | none, [] => []
  | none, c :: cs =>
    if isRunPunct c then collapsePunctGo (some c) cs else c :: collapsePunctGo none cs
  | some p, [] => [p]
  | some p, c :: cs =>
    if isRunPunct c then collapsePunctGo (some c) cs else p :: c :: collapsePunctGo none cs

/-- The excessive-punctuation rule of `clean_text`. -/
def collapsePunctRuns (l : List Char) : List Char := collapsePunctGo none l

/-- ASCII/Latin-1 word characters for the word boundary in the Italian
elision rule (letters, digits and underscore; accented Latin-1 letters
included, matching Python's unicode word class on the repository's data). -/
def isWordChar (c : Char) : Bool :=
  ('A' ≤ c && c ≤ 'Z') || ('a' ≤ c && c ≤ 'z') || c.isDigit || c = '_' ||
  (Char.ofNat 0xC0 ≤ c && c ≤ Char.ofNat 0xFF && c ≠ Char.ofNat 0xD7 && c ≠ Char.ofNat 0xF7)

/-- Is `c` one of the vowels of the elision rule `[aeiouAEIOU]`? -/
def isElisionVowel (c : Char) : Bool :=
  c = 'a' || c = 'e' || c = 'i' || c = 'o' || c = 'u' ||
  c = 'A' || c = 'E' || c = 'I' || c = 'O' || c = 'U'

/-- Does a word boundary precede the scan position whose previous
original character is `prev` (`none` at the start of the text)? -/
def boundaryBefore (prev : Option Char) : Bool :=
  match prev with
  | none => true
  | some p => !isWordChar p

/-- The Italian-elision rule (an `l` at a word boundary, whitespace and
a vowel become `l` + apostrophe + vowel) as a state machine.  In the scanning state the last original character is carried
to decide the word boundary; `some sp` means an `l` at a boundary and
whitespace `sp` have been consumed, and a vowel then completes the
match (at least one whitespace character required). -/
def fixElisionGo : Option Char → Option (List Char) → List Char → List Char
  | _, none, [] => []
  | prev, none, c :: cs =>
    if c = 'l' && boundaryBefore prev then fixElisionGo prev (some []) cs
    else c :: fixElisionGo (some c) none cs
  | _, some sp, [] => 'l' :: sp
  | _, some sp, c :: cs =>
    if isPySpace c then fixElisionGo none (some (sp ++ [c])) cs
    else if ¬sp.isEmpty ∧ isElisionVowel c = true then
      'l' :: '\'' :: c :: fixElisionGo (some c) none cs
    else ('l' :: sp) ++
      (if c = 'l' && boundaryBefore (some (sp.getLastD 'l')) then
        fixElisionGo (some (sp.getLastD 'l')) (some []) cs
      else c :: fixElisionGo (some c) none cs)

/-- The Italian-elision rule of `clean_text`. -/
def fixElision (l : List Char) : List Char := fixElisionGo none none l

/-- The punctuation class `[.,;:!?]` of the space-before-punctuation rule. -/
def isSpacedPunct (c : Char) : Bool :=
  c = '.' || c = ',' || c = ';' || c = ':' || c = '!' || c = '?'

/-- The space-before-punctuation rule `re.sub(r'\s+([.,;:!?])', ...)` as
a state machine: a pending whitespace run is accumulated; punctuation
directly after it deletes the run (the whole match is replaced by the
punctuation mark and scanning resumes after it), anything else replays
the pending run. -/
def dropSpaceGo (pend : List Char) : List Char → List Char
  | [] => pend
  | c :: cs =>
    if isPySpace c then dropSpaceGo (pend ++ [c]) cs
    else if ¬pend.isEmpty ∧ isSpacedPunct c = true then c :: dropSpaceGo [] cs
    else pend ++ c :: dropSpaceGo [] cs

/-- The space-before-punctuation rule of `clean_text`. -/
def dropSpaceBeforePunct (l : List Char) : List Char := dropSpaceGo [] l

/-- Is `c` a leading list marker character (`[•\-*\d]`)? -/
def isLeadMarker (c : Char) : Bool :=
  c = bulletChar || c = '-' || c = '*' || c.isDigit

/-- `re.sub(r'^[•\-*\d]+[\.\)]*\s*', '', text)`: strip one leading run of
bullet/number markers, optional dots/parentheses and optional whitespace. -/
def stripLeadingMarker (l : List Char) : List Char :=
  let m1 := l.takeWhile isLeadMarker
  if m1.isEmpty then l
  else ((l.dropWhile isLeadMarker).dropWhile fun c => c = '.' || c = ')').dropWhile isPySpace

/-- `clean_text` (src/utils.py lines 30-68): whitespace normalization,
unicode canonicalization, then the six regex substitutions in source
order.  The `None` input branch is not modelled: every call site in the
modelled core passes a string. -/
def clean_text (s : String) : String :=
  ⟨stripLeadingMarker
    (dropSpaceBeforePunct
      (fixElision
        (collapsePunctRuns
          (fixSentenceSpacing
            (fixBullets
              ((normalize_whitespace s).data.map uniReplace))))))⟩

/-- Index of the last occurrence of `c` in `l` (Python `str.rfind`,
restricted to single-character needles, returning `none` for -1). -/
def rfindIdx (c : Char) : List Char → Option Nat
  | [] => none
  | x :: xs =>
    match rfindIdx c xs with
    | some i => some (i + 1)
    | none => if x = c then some 0 else none

/-- `truncate_text` (src/utils.py lines 132-154): text at or under the
limit (or empty) is returned unchanged; otherwise the prefix up to and
including the last period within the limit, or the hard prefix plus an
ellipsis when no period exists there. -/
def truncate_text (text : String) (maxLength : Nat) : String :=
  if text = "" ∨ text.length ≤ maxLength then text
  else
    match rfindIdx '.' (text.data.take maxLength) with
    | none => ⟨text.data.take maxLength⟩ ++ "..."
    | some i => ⟨text.data.take (i + 1)⟩

/-- The closed set of semantic categories of the analyzer. -/
inductive Category where
  | documentation | requirements | deadlines | eligibility | funding
deriving DecidableEq, Repr

/-- Does the lowercased string contain any of the given terms
(`any(term in key_lower for term in [...])`)? -/
def hasAnyTerm (s : String) (terms : List String) : Bool :=
  terms.any fun t => strContains s t

/-- Key terms of rule 1 (documentation) of `_categorize_information`. -/
def docKeyTerms : List String := ["document", "allegat", "modulistic", "certificaz"]

/-- Key terms of rule 2 (requirements). -/
def reqKeyTerms : List String := ["requisit", "necessari", "obblig"]

/-- Key terms of rule 3 (deadlines). -/
def dlKeyTerms : List String := ["scadenz", "termin", "tempistic", "deadline"]

/-- Key terms of rule 4 (eligibility). -/
def eligKeyTerms : List String := ["beneficiari", "destinatari", "ammissibil", "eligibil"]

/-- Key terms of rule 5 (funding). -/
def fundKeyTerms : List String := ["contribut", "finanz", "budget", "fond", "spese"]

/-- Content-rule term families (the regex alternations of literals at
src/documentation_analyzer.py lines 208-217, in their source order:
documentation, deadlines, requirements, eligibility, funding). -/
def contentDocTerms : List String := ["document", "allegat", "modulistic", "certificaz"]

/-- Content terms of the deadlines regex. -/
def contentDlTerms : List String := ["scadenz", "termin", "entro il", "deadline"]

/-- Content terms of the requirements regex. -/
def contentReqTerms : List String := ["requisit", "necessari", "obblig", "richiesto"]

/-- Content terms of the eligibility regex. -/
def contentEligTerms : List String := ["beneficiari", "destinatari", "ammissibil", "eligible"]

/-- Content terms of the funding regex (the euro sign is U+20AC). -/
def contentFundTerms : List String :=
  ["contribut", "finanz", "budget", "fond", "euro", "€"]

/-- `_categorize_information` (src/documentation_analyzer.py lines
170-219): an ordered first-match-wins chain on the lowercased key,
then, for non-empty values, the same kind of chain on the joined
lowercased content (in the order documentation, deadlines,
requirements, eligibility, funding); `none` is the uncategorized case. -/
def categorizeInformation (key : String) (values : List String) : Option Category :=
  let kl := pyLower key
  if hasAnyTerm kl docKeyTerms then some .documentation
  else if hasAnyTerm kl reqKeyTerms then some .requirements
  else if hasAnyTerm kl dlKeyTerms then some .deadlines
  else if hasAnyTerm kl eligKeyTerms then some .eligibility
  else if hasAnyTerm kl fundKeyTerms then some .funding
  else if values.isEmpty then none
  else
    let tl := pyLower (joinSep " " values)
    if hasAnyTerm tl contentDocTerms then some .documentation
    else if hasAnyTerm tl contentDlTerms then some .deadlines
    else if hasAnyTerm tl contentReqTerms then some .requirements
    else if hasAnyTerm tl contentEligTerms then some .eligibility
    else if hasAnyTerm tl contentFundTerms then some .funding
    else none

/-- The important-keyword list of `_select_most_informative_items`
(src/documentation_analyzer.py lines 250-257). -/
def importantKeywords : List String :=
  ["document", "allegat", "modulistic", "requisit",
   "scadenz", "termin", "entro il", "deadline",
   "beneficiari", "destinatari", "ammissibil",
   "contribut", "finanz", "budget", "fond", "euro", "€",
   "visura", "camerale", "bilanci", "ula", "dipendenti",
   "brevetto", "patent", "concessione", "identità", "digitale"]

/-- The integer part of the score: one per important keyword contained
in the lowercased item, plus one more when the item contains a digit
(Python accumulates this in `keyword_score`, an `int`). -/
def keywordScore (item : String) : ℕ :=
  (importantKeywords.filter fun k => strContains (pyLower item) k).length
  + (if item.data.any Char.isDigit then 1 else 0)

/-- Base-two logarithm of a natural number (floor), written with the
first argument as structural fuel so that it evaluates by kernel
reduction; `natLog2 n` agrees with the usual `⌊log2 n⌋` for `n ≥ 1`
because halving reaches 1 in at most `n` steps. -/
def natLog2F : Nat → Nat → Nat
  | 0, _ => 0
  | fuel + 1, n => if 2 ≤ n then natLog2F fuel (n / 2) + 1 else 0

/-- Floor base-two logarithm, `natLog2 0 = natLog2 1 = 0`. -/
def natLog2 (n : Nat) : Nat := natLog2F n n

/-- Round a rational to the nearest IEEE binary64 value (53-bit
significand, round to nearest, ties to even), returned as the exact
rational the double denotes.  Exponent overflow and subnormals are not
modelled: the score computation only meets values that are zero or lie
far inside the normal range. -/
def rnd53 (q : ℚ) : ℚ :=
  if q = 0 then 0
  else
    let a : ℚ := |q|
    let e0 : ℤ := (natLog2 q.num.natAbs : ℤ) - (natLog2 q.den : ℤ)
    let e : ℤ :=
      if a < (2 : ℚ) ^ e0 then e0 - 1 else if a < (2 : ℚ) ^ (e0 + 1) then e0 else e0 + 1
    let m : ℚ := a * (2 : ℚ) ^ (52 - e)
    let n0 : ℤ := ⌊m⌋
    let r : ℚ := m - (n0 : ℚ)
    let nr : ℤ :=
      if r < 1 / 2 then n0
      else if 1 / 2 < r then n0 + 1
      else if n0 % 2 = 0 then n0 else n0 + 1
    (if q < 0 then -1 else 1) * (nr : ℚ) * (2 : ℚ) ^ (e - 52)

/-- The information-density score of one item exactly as Python
computes it in IEEE doubles: `len(item) / 50` is one correctly rounded
division, `min(5, ...)` is an exact comparison, and adding the integer
keyword score is one more rounded operation.  The resulting double is
represented by the exact rational it denotes, so comparisons between
scores coincide with Python's float comparisons. -/
def itemScore (item : String) : ℚ :=
  rnd53 (min 5 (rnd53 ((item.length : ℚ) / 50)) + (keywordScore item : ℚ))

/-- The score read mathematically, the way claim C5 states it:
`min(5, length/50)` plus the keyword score, in exact arithmetic.  Kept
for comparison with `itemScore`: the two disagree on which pairs of
items tie, because the double rounding splits some exact ties. -/
def itemScoreExact (item : String) : ℚ :=
  min 5 ((item.length : ℚ) / 50) + (keywordScore item : ℚ)

/-- The descending-score order used for sorting scored items. -/
def scoreGE (a b : String × ℚ) : Prop := b.2 ≤ a.2

instance : DecidableRel scoreGE := fun a b => inferInstanceAs (Decidable (b.2 ≤ a.2))

instance : IsTotal (String × ℚ) scoreGE := ⟨fun a b => le_total b.2 a.2⟩

instance : IsTrans (String × ℚ) scoreGE := ⟨fun _ _ _ h1 h2 => le_trans h2 h1⟩

/-- The scored-item list: items shorter than 15 characters are skipped,
the rest are paired with their score in input order
(src/documentation_analyzer.py lines 239-269). -/
def scoredItems (items : List String) : List (String × ℚ) :=
  (items.filter fun s => 15 ≤ s.length).map fun s => (s, itemScore s)

/-- `_select_most_informative_items` (src/documentation_analyzer.py
lines 221-273): lists at or under the bound pass through unchanged;
otherwise the scored items are sorted by descending score with a
stable sort (Python's `sorted` with `reverse=True`; `insertionSort`
over `scoreGE` realizes exactly the stable descending order) and the
top `maxItems` item strings are returned.  The Python default for
`max_items` is 10; call sites pass it explicitly here. -/
def selectMostInformativeItems (items : List String) (maxItems : Nat) : List String :=
  if items.isEmpty then []
  else if items.length ≤ maxItems then items
  else (((scoredItems items).insertionSort scoreGE).take maxItems).map Prod.fst

/-- A value stored in the working section mapping of the merger: web
`structured_info` holds both section bodies (strings) and term-anchored
snippet buckets (lists of strings); PDF `sections` holds strings. -/
inductive SVal where
  | s (v : String)
  | l (v : List String)
deriving DecidableEq, Repr

/-- A record produced by the web extractor, with the fields
`merge_grant_data` and the claims read.  `title` and `main_content`
are `""` when absent or `None` (Python truthiness); the `url` field and
the `tables` mapping are omitted: the merger only copies tables into a
`tables` key that no modelled consumer (including `generate_summary`)
ever reads, and `url` is never read by the merger at all. -/
structure WebRecord where
  title : String
  main_content : String
  structured_info : List (String × SVal)
  lists : List (String × List String)
deriving DecidableEq, Repr

/-- A record produced by the PDF extractor as seen by the merger.
`buckets` holds the top-level term-anchored snippet entries that
`process_pdf_content` stores under `term.capitalize()` keys; the fixed
keys `context`, `main_content`, `sections`, `lists`, `tables`,
`source`, `filename` and `is_priority` of a real record are never
members of the merger's internal `search_terms` list, so only the
bucket entries can satisfy its key test; `main_content`, `tables` and
`is_priority` are omitted because no modelled consumer reads them. -/
structure PdfRecord where
  context : String
  source : String
  filename : String
  sections : List (String × String)
  lists : List (List String)
  buckets : List (String × List String)
deriving DecidableEq, Repr

/-- One entry of the merged record's `pdf_sources` sequence. -/
structure PdfSource where
  url : String
  filename : String
  context : String
deriving DecidableEq, Repr

/-- The merged record built by `merge_grant_data` (its non-empty
branch); the `tables` key is omitted as explained on `WebRecord`. -/
structure UnifiedRecord where
  title : String
  overview : String
  sections : List (String × String)
  lists : List (String × List String)
  requirements : List String
  documentation : List String
  deadlines : List String
  eligibility : List String
  funding : List String
  pdf_sources : List PdfSource
deriving DecidableEq, Repr

/-- The all-empty merged record the non-empty branch starts from. -/
def emptyUnified : UnifiedRecord :=
  ⟨"", "", [], [], [], [], [], [], [], []⟩

/-- Dict assignment `m[k] = v` on an insertion-ordered mapping:
an existing key keeps its position and gets the new value, a new key is
appended at the end (CPython dict semantics). -/
def updA {α : Type} (m : List (String × α)) (k : String) (v : α) : List (String × α) :=
  if m.any fun p => p.1 = k then
    m.map fun p => if p.1 = k then (k, v) else p
  else m ++ [(k, v)]

/-- The duplicate-skipping append of the merger's list handling
(src/documentation_analyzer.py lines 90-95 and 134-139): each new item
is appended only when its string form is not already present.  Items
are strings, so Python's `str(item)` is the item itself. -/
def dedupAppend (cur new : List String) : List String :=
  new.foldl (fun acc item => if item ∈ acc then acc else acc ++ [item]) cur

/-- Folding one titled list into the merged `lists` mapping: a fresh
title enters verbatim, an existing title gets the duplicate-skipping
append. -/
def mergeListInto (m : List (String × List String)) (k : String) (items : List String) :
    List (String × List String) :=
  if m.any fun p => p.1 = k then
    m.map fun p => if p.1 = k then (k, dedupAppend p.2 items) else p
  else m ++ [(k, items)]

/-- Order-preserving deduplication `list(dict.fromkeys(xs))`: keeps the
first occurrence of every element.  Also serves, under the name the
spec gives it, as the "union in first-seen order with duplicates
removed" that claim C8 asserts of list merging. -/
def firstSeenUnion (xs : List String) : List String :=
  xs.foldl (fun acc item => if item ∈ acc then acc else acc ++ [item]) []

/-- Append `items` to the per-category sequence chosen by `c`. -/
def extendCat (u : UnifiedRecord) (c : Category) (items : List String) : UnifiedRecord :=
  match c with
  | .documentation => { u with documentation := u.documentation ++ items }
  | .requirements => { u with requirements := u.requirements ++ items }
  | .deadlines => { u with deadlines := u.deadlines ++ items }
  | .eligibility => { u with eligibility := u.eligibility ++ items }
  | .funding => { u with funding := u.funding ++ items }

/-- The merger's internal `search_terms` list
(src/documentation_analyzer.py line 143). -/
def mergeSearchTerms : List String :=
  ["document", "allegat", "modulistic", "certificaz", "requisit", "necessari",
   "obblig", "scadenz", "termin", "tempistic", "deadline", "beneficiari",
   "destinatari", "ammissibil", "eligibil", "contribut", "finanz", "budget",
   "fond", "spese"]

/-- `config.SEARCH_TERMS` (src/config.py lines 33-45), the vocabulary
whose capitalized forms key the PDF extractor's snippet buckets. -/
def configSearchTerms : List String :=
  ["bando", "contributo", "finanziamento", "sovvenzione", "agevolazione",
   "scadenza", "deadline", "termine", "presentazione", "domanda",
   "beneficiari", "destinatari", "requisiti", "ammissibilità", "eligibilità",
   "documentazione", "allegati", "modulistica", "documenti", "certificazioni",
   "fondo", "misura", "intervento", "programma", "progetto",
   "spese", "costi", "ammissibili", "finanziabili", "contributo",
   "istruttoria", "valutazione", "punteggio", "criteri", "graduatoria",
   "erogazione", "rendicontazione", "liquidazione", "saldo", "anticipo",
   "visura", "camerale", "bilanci", "ula", "dipendenti",
   "brevetto", "patent", "concessione", "titolo", "invention",
   "servizi", "specialistici", "preventivi", "quotation", "valorizzazione"]

/-- Routing of one top-level PDF entry through the merger's key test
(src/documentation_analyzer.py lines 141-147): only a key that is
literally a member of `mergeSearchTerms` (with a list value, which the
bucket representation guarantees) is categorized and appended. -/
def pdfBucketStep (u : UnifiedRecord) (kv : String × List String) : UnifiedRecord :=
  if kv.1 ∈ mergeSearchTerms then
    match categorizeInformation kv.1 kv.2 with
    | some c => extendCat u c kv.2
    | none => u
  else u

/-- Draining one working-section entry (src/documentation_analyzer.py
lines 150-161): a list categorizes on its content and is appended on a
hit and dropped on a miss; a scalar categorizes on itself, is appended
on a hit and retained under `sections` on a miss. -/
def drainStep (u : UnifiedRecord) (kv : String × SVal) : UnifiedRecord :=
  match kv.2 with
  | .l items =>
    match categorizeInformation kv.1 items with
    | some c => extendCat u c items
    | none => u
  | .s t =>
    match categorizeInformation kv.1 [t] with
    | some c => extendCat u c [t]
    | none => { u with sections := u.sections ++ [(kv.1, t)] }

/-- Processing of one PDF record inside the merge fold: record the
source descriptor, merge the untitled lists under the context-derived
title, then route the term buckets. -/
def mergePdfRecord (u : UnifiedRecord) (d : PdfRecord) : UnifiedRecord :=
  let u1 :=
    if d.source ≠ "" then
      { u with pdf_sources := u.pdf_sources ++ [⟨d.source, d.filename, d.context⟩] }
    else u
  let title := if d.context ≠ "" then d.context else "Informazioni dal PDF"
  let u2 := { u1 with lists := d.lists.foldl (fun m items => mergeListInto m title items) u1.lists }
  d.buckets.foldl pdfBucketStep u2

/-- `merge_grant_data` (src/documentation_analyzer.py lines 28-168).
`none` models the empty dict returned when both inputs are empty.
Fold order follows the source: title and overview from the web records,
working sections collected from web `structured_info` then PDF
`sections` (later writers overwriting in place), web lists then PDF
lists, PDF sources and bucket routing per PDF record, then the drain of
the working sections, then order-preserving deduplication of the five
category sequences. -/
def merge_grant_data (webData : List WebRecord) (pdfData : List PdfRecord) :
    Option UnifiedRecord :=
  if webData.isEmpty ∧ pdfData.isEmpty then none
  else some (
    let title1 := webData.foldl
      (fun t d => if d.title ≠ "" ∧ (t = "" ∨ t.length < d.title.length) then d.title else t) ""
    let title :=
      if title1 = "" then
        (((pdfData.find? fun d => d.context ≠ "" ∧ d.context.length < 100).map
          fun d => d.context).getD "")
      else title1
    let overview := webData.foldl
      (fun o d => if o.length < d.main_content.length then d.main_content else o) ""
    let allSections := pdfData.foldl
      (fun m d => d.sections.foldl (fun m kv => updA m kv.1 (SVal.s kv.2)) m)
      (webData.foldl
        (fun m d => d.structured_info.foldl (fun m kv => updA m kv.1 kv.2) m) [])
    let webLists := webData.foldl
      (fun m d => d.lists.foldl (fun m kv => mergeListInto m kv.1 kv.2) m) []
    let u0 := { emptyUnified with title := title, overview := overview, lists := webLists }
    let u1 := pdfData.foldl mergePdfRecord u0
    let u2 := allSections.foldl drainStep u1
    { u2 with
      requirements := firstSeenUnion u2.requirements,
      documentation := firstSeenUnion u2.documentation,
      deadlines := firstSeenUnion u2.deadlines,
      eligibility := firstSeenUnion u2.eligibility,
      funding := firstSeenUnion u2.funding })

/-- The relevance keywords of the leftover-sections filter in
`generate_summary` (src/documentation_analyzer.py lines 349-350). -/
def sectionKeywords : List String :=
  ["document", "allegat", "requisi", "benefi", "scad", "finanz"]

/-- The bulleted block a non-empty category renders to. -/
def categoryBlock (heading : String) (items : List String) : List String :=
  if items.isEmpty then []
  else heading :: (selectMostInformativeItems items 10).map fun s => "- " ++ s

/-- The timestamp-independent part of the rendered summary of a
non-empty record (src/documentation_analyzer.py lines 288-363): the
title heading, then each section in the fixed source order, each
emitted only when its data is non-empty. -/
def summaryParts (g : UnifiedRecord) : List String :=
  let titlePart := if g.title ≠ "" then "# " ++ g.title else "# Documentazione Necessaria"
  let overviewParts :=
    if g.overview ≠ "" then ["\n## Panoramica\n" ++ truncate_text g.overview 500] else []
  let docParts := categoryBlock "\n## Documentazione Richiesta" g.documentation
  let reqParts := categoryBlock "\n## Requisiti" g.requirements
  let eligParts := categoryBlock "\n## Beneficiari Ammissibili" g.eligibility
  let fundParts := categoryBlock "\n## Finanziamento" g.funding
  let dlParts := categoryBlock "\n## Scadenze" g.deadlines
  let listParts := (g.lists.map fun p =>
    if 1 < p.2.length then
      ("\n## " ++ p.1) :: (selectMostInformativeItems p.2 5).map (fun s => "- " ++ s)
    else []).join
  let sectionParts := (g.sections.map fun p =>
    if 100 < p.2.length ∧ hasAnyTerm (pyLower (p.1 ++ p.2)) sectionKeywords then
      ["\n## " ++ p.1, truncate_text p.2 300]
    else []).join
  let pdfParts :=
    if g.pdf_sources.isEmpty then []
    else "\n## Fonti PDF" :: g.pdf_sources.map fun p =>
      if p.context ≠ "" then "- " ++ p.context ++ " [" ++ p.filename ++ "]"
      else "- " ++ p.filename
  titlePart :: (overviewParts ++ docParts ++ reqParts ++ eligParts ++
    fundParts ++ dlParts ++ listParts ++ sectionParts ++ pdfParts)

/-- `generate_summary` (src/documentation_analyzer.py lines 275-369).
The input `none` models the empty dict (the merge of no sources), on
which the sentinel is returned.  The wall-clock timestamp
`datetime.now().strftime("%d/%m/%Y %H:%M")` is the function's only
non-record input and is passed explicitly as `ts`. -/
def generate_summary (grantData : Option UnifiedRecord) (ts : String) : String :=
  match grantData with
  | none => "Nessuna documentazione necessaria specificata."
  | some g =>
    joinSep "\n" (summaryParts g ++ ["\n\n_Ultimo aggiornamento: " ++ ts ++ "_"])

/-- Split a character list into lines at newline characters, the way a
reader of the rendered summary sees lines (splitting "a\nb" into "a"
and "b"; the empty text has one empty line). -/
def pyLines : List Char → List (List Char)
  | [] => [[]]
  | c :: cs =>
    if c = '\n' then [] :: pyLines cs
    else
      match pyLines cs with
      | l :: ls => (c :: l) :: ls
      | [] => [[c]]

/-- The snippet-bucket accumulation loop shared by the web and the PDF
extractor (src/web_scraper.py lines 213-216 and src/pdf_processor.py
lines 196-199): each regex match is cleaned and appended to the bucket
only when the cleaned form is non-empty and not already present. -/
def buildBucket (acc : List String) : List String → List String
  | [] => acc
  | m :: ms =>
    if clean_text m ≠ "" ∧ clean_text m ∉ acc then buildBucket (acc ++ [clean_text m]) ms
    else buildBucket acc ms

/-! Theorems.  Helper lemmas come first, the claim theorems follow. -/

theorem extendCat_sections (u : UnifiedRecord) (c : Category) (items : List String) :
    (extendCat u c items).sections = u.sections := by
  cases c <;> rfl

/-- Claim C3: the spec asserts `clean_text` is idempotent; the code is
not: on "a . ." the space-before-punctuation fix creates the adjacent
run ".." only after the punctuation-run collapse has already run, so a
second application collapses it further. -/
theorem clean_text_not_idempotent :
    clean_text "a . ." = "a.." ∧ clean_text (clean_text "a . .") = "a." ∧
    clean_text (clean_text "a . .") ≠ clean_text "a . ." := by
  refine ⟨rfl, rfl, fun h => ?_⟩
  have h1 : clean_text "a . ." = "a.." := rfl
  have h2 : clean_text (clean_text "a . .") = "a." := rfl
  rw [h2, h1] at h
  exact absurd h (by decide)

/-- Claim C7: the key rules of `_categorize_information` form an
ordered first-match-wins chain: a documentation term in the lowercased
key decides the category no matter what else matches, and each later
family fires only when all earlier ones miss. -/
theorem categorize_key_rule_chain (key : String) (values : List String) :
    (hasAnyTerm (pyLower key) docKeyTerms = true →
      categorizeInformation key values = some Category.documentation) ∧
    (hasAnyTerm (pyLower key) docKeyTerms = false →
      hasAnyTerm (pyLower key) reqKeyTerms = true →
      categorizeInformation key values = some Category.requirements) ∧
    (hasAnyTerm (pyLower key) docKeyTerms = false →
      hasAnyTerm (pyLower key) reqKeyTerms = false →
      hasAnyTerm (pyLower key) dlKeyTerms = true →
      categorizeInformation key values = some Category.deadlines) ∧
    (hasAnyTerm (pyLower key) docKeyTerms = false →
      hasAnyTerm (pyLower key) reqKeyTerms = false →
      hasAnyTerm (pyLower key) dlKeyTerms = false →
      hasAnyTerm (pyLower key) eligKeyTerms = true →
      categorizeInformation key values = some Category.eligibility) ∧
    (hasAnyTerm (pyLower key) docKeyTerms = false →
      hasAnyTerm (pyLower key) reqKeyTerms = false →
      hasAnyTerm (pyLower key) dlKeyTerms = false →
      hasAnyTerm (pyLower key) eligKeyTerms = false →
      hasAnyTerm (pyLower key) fundKeyTerms = true →
      categorizeInformation key values = some Category.funding) := by
  refine ⟨fun h1 => ?_, fun h1 h2 => ?_, fun h1 h2 h3 => ?_,
    fun h1 h2 h3 h4 => ?_, fun h1 h2 h3 h4 h5 => ?_⟩
  · simp [categorizeInformation, h1]
  · simp [categorizeInformation, h1, h2]
  · simp [categorizeInformation, h1, h2, h3]
  · simp [categorizeInformation, h1, h2, h3, h4]
  · simp [categorizeInformation, h1, h2, h3, h4, h5]

/-- Witness for C7 at the spec's own precedence example: the key
"Allegati obbligatori" matches both the documentation family
("allegat") and the requirements family ("obblig"), and rule 1 wins. -/
theorem categorize_key_rule_chain_witness :
    hasAnyTerm (pyLower "Allegati obbligatori") docKeyTerms = true ∧
    hasAnyTerm (pyLower "Allegati obbligatori") reqKeyTerms = true ∧
    categorizeInformation "Allegati obbligatori" ["Compilare il modulo"] =
      some Category.documentation :=
  ⟨by decide, by decide,
    (categorize_key_rule_chain "Allegati obbligatori" ["Compilare il modulo"]).1 (by decide)⟩

set_option maxRecDepth 8000 in
/-- Claim C1 (code bug): snippet buckets of real PDF records are keyed
by `term.capitalize()` (e.g. "Documentazione"), but the merger's
routing test `key in search_terms` compares those keys for literal
equality with the lowercase stems of its own `search_terms` list, so
no producible bucket key ever passes it: with one web record carrying
documentation snippets and one PDF record carrying the bucket
("Documentazione", ["Modulo A1"]), the merged documentation sequence
and the rendered "## Documentazione Richiesta" section contain the web
items but not "Modulo A1". -/
theorem pdf_snippet_buckets_never_routed :
    (configSearchTerms.all fun t => !(mergeSearchTerms.contains (pyCapitalize t))) = true ∧
    (merge_grant_data
        [⟨"Bando Ricerca", "",
          [("Documentazione", SVal.l ["Visura camerale", "Bilanci ultimi 3 anni"])], []⟩]
        [⟨"Modulistica", "u", "mod.pdf", [], [],
          [("Documentazione", ["Modulo A1"])]⟩]).map (fun u => u.documentation) =
      some ["Visura camerale", "Bilanci ultimi 3 anni"] ∧
    strContains
      (generate_summary
        (merge_grant_data
          [⟨"Bando Ricerca", "",
            [("Documentazione", SVal.l ["Visura camerale", "Bilanci ultimi 3 anni"])], []⟩]
          [⟨"Modulistica", "u", "mod.pdf", [], [],
            [("Documentazione", ["Modulo A1"])]⟩]) "01/01/2025 10:00")
      "Modulo A1" = false ∧
    strContains
      (generate_summary
        (merge_grant_data
          [⟨"Bando Ricerca", "",
            [("Documentazione", SVal.l ["Visura camerale", "Bilanci ultimi 3 anni"])], []⟩]
          [⟨"Modulistica", "u", "mod.pdf", [], [],
            [("Documentazione", ["Modulo A1"])]⟩]) "01/01/2025 10:00")
      "# Bando Ricerca" = true ∧
    strContains
      (generate_summary
        (merge_grant_data
          [⟨"Bando Ricerca", "",
            [("Documentazione", SVal.l ["Visura camerale", "Bilanci ultimi 3 anni"])], []⟩]
          [⟨"Modulistica", "u", "mod.pdf", [], [],
            [("Documentazione", ["Modulo A1"])]⟩]) "01/01/2025 10:00")
      "## Documentazione Richiesta" = true :=
  ⟨rfl, rfl, rfl, rfl, rfl⟩

/-- Counterexample to claim C2: a list-valued working-section entry the
categorizer cannot place ("Zzz" with content "qqq") is dropped
entirely by the merger — it reaches neither `sections` nor any
category nor `lists`. -/
theorem list_valued_miss_dropped :
    categorizeInformation "Zzz" ["qqq"] = none ∧
    (merge_grant_data [⟨"", "", [("Zzz", SVal.l ["qqq"])], []⟩] []).map
      (fun u => (u.sections, u.lists, u.documentation, u.requirements,
        u.deadlines, u.eligibility, u.funding)) =
      some ([], [], [], [], [], [], []) :=
  ⟨rfl, rfl⟩

/-- Counterexample to claim C4: `generate_summary` returns the
sentinel only for the empty dict; a record whose fields are all
present but empty instead renders the fallback title heading and the
timestamp line. -/
theorem empty_fields_record_not_sentinel :
    generate_summary (some emptyUnified) "01/01/2025 10:00" ≠
      "Nessuna documentazione necessaria specificata." := by
  have h1 : generate_summary (some emptyUnified) "01/01/2025 10:00" =
      "# Documentazione Necessaria\n\n\n_Ultimo aggiornamento: 01/01/2025 10:00_" := rfl
  rw [h1]
  decide

/-- Counterexample to claim C6: when the text is at or under the
limit it is returned unchanged, so the output need not end with a
period even though one occurs within the first `n` characters. -/
theorem truncate_unchanged_ignores_period :
    truncate_text "a.b" 10 = "a.b" ∧ '.' ∈ "a.b".data.take 10 ∧
    "a.b".data.getLastD ' ' ≠ '.' :=
  ⟨rfl, by decide, by decide⟩

/-- Counterexample to claim C8: the first list contributed under a
title enters the merged mapping verbatim, so its internal duplicates
survive and the result is not the duplicate-free first-seen union. -/
theorem merged_list_keeps_first_duplicates :
    (merge_grant_data [⟨"", "", [], [("Documenti", ["CV", "CV"])]⟩,
        ⟨"", "", [], [("Documenti", ["Visura"])]⟩] []).map (fun u => u.lists) =
      some [("Documenti", ["CV", "CV", "Visura"])] ∧
    firstSeenUnion (["CV", "CV"] ++ ["Visura"]) = ["CV", "Visura"] ∧
    (["CV", "CV", "Visura"] : List String) ≠ ["CV", "Visura"] :=
  ⟨rfl, rfl, by decide⟩

theorem drain_sections_eq (alls : List (String × SVal)) (u : UnifiedRecord) :
    (alls.foldl drainStep u).sections =
      u.sections ++ alls.filterMap fun kv =>
        match kv.2 with
        | SVal.s t => if categorizeInformation kv.1 [t] = none then some (kv.1, t) else none
        | SVal.l _ => none := by
  induction alls generalizing u with
  | nil => simp
  | cons kv rest ih =>
    obtain ⟨k, v⟩ := kv
    cases v with
    | s t =>
      cases hc : categorizeInformation k [t] with
      | none =>
        simp only [List.foldl_cons, List.filterMap_cons, drainStep, hc]
        rw [ih]
        try simp
      | some c =>
        simp only [List.foldl_cons, List.filterMap_cons, drainStep, hc]
        rw [ih, extendCat_sections]
        try simp
    | l items =>
      cases hc : categorizeInformation k items with
      | none =>
        simp only [List.foldl_cons, List.filterMap_cons, drainStep, hc]
        rw [ih]
        try simp
      | some c =>
        simp only [List.foldl_cons, List.filterMap_cons, drainStep, hc]
        rw [ih, extendCat_sections]
        try simp

/-- Claim C2 as amended: the drain of the working section mapping
retains under `sections` exactly the scalar entries the categorizer
cannot place; a list-valued uncategorizable entry is dropped (second
conjunct: through `merge_grant_data`, a single scalar miss ends up
verbatim under `sections`). -/
theorem uncategorized_drain_retention :
    (∀ (alls : List (String × SVal)) (u : UnifiedRecord),
      (alls.foldl drainStep u).sections =
        u.sections ++ alls.filterMap fun kv =>
          match kv.2 with
          | SVal.s t => if categorizeInformation kv.1 [t] = none then some (kv.1, t) else none
          | SVal.l _ => none) ∧
    (∀ k t title mc : String, categorizeInformation k [t] = none →
      (merge_grant_data [⟨title, mc, [(k, SVal.s t)], []⟩] []).map (fun u => u.sections) =
        some [(k, t)]) := by
  refine ⟨drain_sections_eq, fun k t title mc h => ?_⟩
  simp [merge_grant_data, updA, drain_sections_eq, drainStep, h, emptyUnified]

/-- Witness for the amended C2 at the counterexample's own entry,
given as a scalar this time: the uncategorizable pair ("Zzz", "qqq")
is retained under `sections`. -/
theorem uncategorized_drain_retention_witness :
    categorizeInformation "Zzz" ["qqq"] = none ∧
    (merge_grant_data [⟨"", "", [("Zzz", SVal.s "qqq")], []⟩] []).map (fun u => u.sections) =
      some [("Zzz", "qqq")] :=
  ⟨rfl, uncategorized_drain_retention.2 "Zzz" "qqq" "" "" rfl⟩

theorem joinSep_cons (sep x : String) (l : List String) (h : l ≠ []) :
    joinSep sep (x :: l) = x ++ sep ++ joinSep sep l := by
  cases l with
  | nil => exact absurd rfl h
  | cons y ys => rfl

/-- Claim C4 as amended: the sentinel is returned exactly for the
empty mapping (the merge of no inputs); a record with all fields
present but empty renders the fallback heading plus the timestamp
line; and the output is never the empty string. -/
theorem generate_summary_empty_behavior :
    merge_grant_data [] [] = none ∧
    (∀ ts : String, generate_summary none ts =
      "Nessuna documentazione necessaria specificata.") ∧
    (∀ ts : String, generate_summary (some emptyUnified) ts =
      ("# Documentazione Necessaria" ++ "\n") ++
        (("\n\n_Ultimo aggiornamento: " ++ ts) ++ "_")) ∧
    (∀ (gd : Option UnifiedRecord) (ts : String), generate_summary gd ts ≠ "") := by
  refine ⟨rfl, fun ts => rfl, fun ts => rfl, fun gd ts => ?_⟩
  cases gd with
  | none => simp [generate_summary]
  | some g =>
    have hdata : (generate_summary (some g) ts).data ≠ [] := by
      obtain ⟨rest, hrest⟩ : ∃ rest, summaryParts g =
          (if g.title ≠ "" then "# " ++ g.title else "# Documentazione Necessaria") :: rest :=
        ⟨_, rfl⟩
      have hstart : generate_summary (some g) ts =
          joinSep "\n" (summaryParts g ++ ["\n\n_Ultimo aggiornamento: " ++ ts ++ "_"]) := rfl
      have hgen : generate_summary (some g) ts =
          (if g.title ≠ "" then "# " ++ g.title else "# Documentazione Necessaria") ++ "\n" ++
            joinSep "\n" (rest ++ ["\n\n_Ultimo aggiornamento: " ++ ts ++ "_"]) := by
        rw [hstart, hrest, List.cons_append, joinSep_cons _ _ _ (by simp)]
      rw [hgen]
      by_cases ht : g.title ≠ "" <;> simp [ht, String.data_append]
    intro hcontra
    rw [hcontra] at hdata
    exact hdata rfl

theorem buildBucket_decomp (ms : List String) :
    ∀ acc : List String, ∃ t, buildBucket acc ms = acc ++ t ∧
      t.Sublist (ms.map clean_text) ∧ (acc.Nodup → (acc ++ t).Nodup) := by
  induction ms with
  | nil => exact fun acc => ⟨[], by simp [buildBucket], by simp, fun h => by simpa⟩
  | cons m rest ih =>
    intro acc
    by_cases hc : clean_text m ≠ "" ∧ clean_text m ∉ acc
    · obtain ⟨t, ht1, ht2, ht3⟩ := ih (acc ++ [clean_text m])
      refine ⟨clean_text m :: t, ?_, ?_, ?_⟩
      · rw [buildBucket, if_pos hc, ht1]
        simp
      · exact List.Sublist.cons₂ _ ht2
      · intro hnd
        have hmid : (acc ++ [clean_text m]).Nodup := by
          rw [List.nodup_append]
          refine ⟨hnd, by simp, ?_⟩
          intro a ha hmem
          rw [List.mem_singleton] at hmem
          exact hc.2 (hmem ▸ ha)
        have := ht3 hmid
        simpa using this
    · obtain ⟨t, ht1, ht2, ht3⟩ := ih acc
      refine ⟨t, ?_, List.Sublist.cons _ ht2, ht3⟩
      rw [buildBucket, if_neg hc]
      exact ht1

/-- Claim C9: a snippet bucket accumulated from an empty start (the
way both extractors create a fresh `term.capitalize()` bucket) never
contains a duplicate cleaned snippet, and its contents are a
subsequence of the cleaned matches in match order, so first-insertion
order is preserved. -/
theorem snippet_buckets_nodup_ordered (ms : List String) :
    (buildBucket [] ms).Nodup ∧ (buildBucket [] ms).Sublist (ms.map clean_text) := by
  obtain ⟨t, h1, h2, h3⟩ := buildBucket_decomp ms []
  rw [h1]
  simp only [List.nil_append]
  exact ⟨by simpa using h3 List.nodup_nil, h2⟩

theorem dedup_foldl_of_nodup :
    ∀ (l acc : List String), (acc ++ l).Nodup →
      l.foldl (fun acc item => if item ∈ acc then acc else acc ++ [item]) acc = acc ++ l := by
  intro l
  induction l with
  | nil => intro acc _; simp
  | cons x xs ih =>
    intro acc h
    have hx : x ∉ acc := by
      intro hmem
      exact (List.nodup_append.mp h).2.2 hmem (List.mem_cons_self x xs)
    have h' : ((acc ++ [x]) ++ xs).Nodup := by
      rw [List.append_assoc]
      simpa using h
    rw [List.foldl_cons, if_neg hx, ih (acc ++ [x]) h']
    simp

theorem firstSeenUnion_of_nodup (l : List String) (h : l.Nodup) : firstSeenUnion l = l := by
  have := dedup_foldl_of_nodup l [] (by simpa using h)
  simpa [firstSeenUnion] using this

theorem dedupAppend_eq_firstSeenUnion (l1 l2 : List String) (h : l1.Nodup) :
    dedupAppend l1 l2 = firstSeenUnion (l1 ++ l2) := by
  rw [firstSeenUnion, List.foldl_append]
  rw [show List.foldl (fun acc item => if item ∈ acc then acc else acc ++ [item]) [] l1 = l1 from
    by simpa using dedup_foldl_of_nodup l1 [] (by simpa using h)]
  rfl

theorem dedupAppend_nodup :
    ∀ (l2 acc : List String), acc.Nodup → (dedupAppend acc l2).Nodup := by
  intro l2
  induction l2 with
  | nil => intro acc h; simpa [dedupAppend]
  | cons x xs ih =>
    intro acc h
    by_cases hx : x ∈ acc
    · simpa [dedupAppend, List.foldl_cons, hx] using ih acc h
    · have hnd : (acc ++ [x]).Nodup := by
        rw [List.nodup_append]
        refine ⟨h, by simp, ?_⟩
        intro a ha hmem
        rw [List.mem_singleton] at hmem
        exact hx (hmem ▸ ha)
      simpa [dedupAppend, List.foldl_cons, hx] using ih (acc ++ [x]) hnd

/-- Claim C8 as amended: two same-titled lists merge by keeping the
first sequence verbatim and appending the not-yet-present items of the
second; when the first sequence is duplicate-free the merged list is
exactly the duplicate-free first-seen union of the two sequences.
Untitled PDF lists are first titled by the PDF's context, or
"Informazioni dal PDF" when the context is empty. -/
theorem merge_lists_union_spec :
    (∀ (t : String) (l1 l2 : List String), l1.Nodup →
      (merge_grant_data [⟨"", "", [], [(t, l1)]⟩, ⟨"", "", [], [(t, l2)]⟩] []).map
          (fun u => u.lists) = some [(t, firstSeenUnion (l1 ++ l2))] ∧
        (firstSeenUnion (l1 ++ l2)).Nodup) ∧
    (∀ (c : String) (items : List String),
      (merge_grant_data [] [⟨c, "", "", [], [items], []⟩]).map (fun u => u.lists) =
        some [(if c ≠ "" then c else "Informazioni dal PDF", items)]) := by
  constructor
  · intro t l1 l2 h
    constructor
    · simp [merge_grant_data, mergeListInto, emptyUnified,
        dedupAppend_eq_firstSeenUnion l1 l2 h]
    · rw [← dedupAppend_eq_firstSeenUnion l1 l2 h]
      exact dedupAppend_nodup l2 l1 h
  · intro c items
    simp [merge_grant_data, mergePdfRecord, mergeListInto, emptyUnified]

/-- Witness for the amended C8 at the spec's "Documenti" example:
merging ["CV","Visura"] with ["Visura","Bilancio"] under the same
title yields ["CV","Visura","Bilancio"], and the PDF titling rule
produces the context title "Modulistica". -/
theorem merge_lists_union_spec_witness :
    (["CV", "Visura"] : List String).Nodup ∧
    (merge_grant_data [⟨"", "", [], [("Documenti", ["CV", "Visura"])]⟩,
        ⟨"", "", [], [("Documenti", ["Visura", "Bilancio"])]⟩] []).map (fun u => u.lists) =
      some [("Documenti", ["CV", "Visura", "Bilancio"])] ∧
    (merge_grant_data [] [⟨"Modulistica", "", "", [], [["Modulo A1"]], []⟩]).map
      (fun u => u.lists) = some [("Modulistica", ["Modulo A1"])] := by
  refine ⟨by decide, ?_, ?_⟩
  · exact ((merge_lists_union_spec.1 "Documenti" ["CV", "Visura"] ["Visura", "Bilancio"]
      (by decide)).1).trans (by rfl)
  · exact (merge_lists_union_spec.2 "Modulistica" ["Modulo A1"]).trans (by rfl)

theorem rfindIdx_eq_none {c : Char} : ∀ {l : List Char}, rfindIdx c l = none → c ∉ l := by
  intro l
  induction l with
  | nil => intro _ h; simp at h
  | cons x xs ih =>
    intro h
    rw [rfindIdx] at h
    cases hr : rfindIdx c xs with
    | some i => rw [hr] at h; simp at h
    | none =>
      rw [hr] at h
      by_cases hx : x = c
      · rw [if_pos hx] at h; simp at h
      · intro hmem
        rcases List.mem_cons.mp hmem with h1 | h1
        · exact hx h1.symm
        · exact ih hr h1

theorem rfindIdx_spec {c : Char} :
    ∀ {l : List Char} {i : Nat}, rfindIdx c l = some i →
      i < l.length ∧ l.getD i ' ' = c ∧
        ∀ j, i < j → j < l.length → l.getD j ' ' ≠ c := by
  intro l
  induction l with
  | nil => intro i h; simp [rfindIdx] at h
  | cons x xs ih =>
    intro i h
    rw [rfindIdx] at h
    cases hr : rfindIdx c xs with
    | some i0 =>
      rw [hr] at h
      obtain ⟨h1, h2, h3⟩ := ih hr
      obtain rfl : i0 + 1 = i := by simpa using h
      refine ⟨by simpa using h1, by simpa using h2, ?_⟩
      intro j hj1 hj2
      match j, hj1 with
      | j' + 1, hj1 =>
        rw [List.getD_cons_succ]
        exact h3 j' (by omega) (by simpa using hj2)
    | none =>
      rw [hr] at h
      by_cases hx : x = c
      · rw [if_pos hx] at h
        obtain rfl : 0 = i := by simpa using h
        refine ⟨by simp, by simpa using hx, ?_⟩
        intro j hj1 hj2
        match j, hj1 with
        | j' + 1, _ =>
          rw [List.getD_cons_succ]
          intro hc
          have hlt : j' < xs.length := by simpa using hj2
          have : xs.getD j' ' ' ∈ xs := by
            rw [List.getD_eq_getElem?_getD, List.getElem?_eq_getElem hlt]
            exact List.getElem_mem hlt
          exact rfindIdx_eq_none hr (hc ▸ this)
      · rw [if_neg hx] at h
        simp at h

/-- Claim C6 as amended: the output of `truncate_text` never exceeds
the limit by more than the three ellipsis characters; text at or under
the limit passes through unchanged; and in the truncating case, when a
period occurs within the first `n` characters, the output is the
prefix up to and including the last such period and therefore ends
with a period. -/
theorem truncate_text_spec (text : String) (n : Nat) :
    (truncate_text text n).length ≤ n + 3 ∧
    (text.length ≤ n → truncate_text text n = text) ∧
    (n < text.length → '.' ∈ text.data.take n →
      ∃ k, k < n ∧ (text.data.take n).getD k ' ' = '.' ∧
        (∀ j, k < j → j < n → (text.data.take n).getD j ' ' ≠ '.') ∧
        truncate_text text n = ⟨text.data.take (k + 1)⟩ ∧
        (truncate_text text n).data.getLastD ' ' = '.') := by
  by_cases hshort : text = "" ∨ text.length ≤ n
  · have ht : truncate_text text n = text := by rw [truncate_text, if_pos hshort]
    refine ⟨?_, fun _ => ht, fun hlong _ => ?_⟩
    · rw [ht]
      rcases hshort with h | h
      · rw [h]
        exact Nat.le_add_left _ _
      · omega
    · rcases hshort with h | h
      · rw [h] at hlong; simp [String.length] at hlong
      · omega
  · push_neg at hshort
    obtain ⟨hne, hlong⟩ := hshort
    have hdl : text.data.length = text.length := rfl
    have hlen : (text.data.take n).length = n := by
      rw [List.length_take]
      have : n ≤ text.data.length := le_of_lt hlong
      omega
    cases hr : rfindIdx '.' (text.data.take n) with
    | none =>
      have ht : truncate_text text n = ⟨text.data.take n⟩ ++ "..." := by
        rw [truncate_text, if_neg (by push_neg; exact ⟨hne, hlong⟩), hr]
      refine ⟨?_, fun hc => absurd hc (by omega), fun _ hmem => ?_⟩
      · rw [ht, String.length_append]
        have : (⟨text.data.take n⟩ : String).length = n := hlen
        rw [this]
        exact Nat.le_refl (n + 3)
      · exact absurd hmem (rfindIdx_eq_none hr)
    | some k =>
      obtain ⟨h1, h2, h3⟩ := rfindIdx_spec hr
      rw [hlen] at h1
      have ht : truncate_text text n = ⟨text.data.take (k + 1)⟩ := by
        rw [truncate_text, if_neg (by push_neg; exact ⟨hne, hlong⟩), hr]
      refine ⟨?_, fun hc => absurd hc (by omega), fun _ _ => ?_⟩
      · rw [ht]
        have : (⟨text.data.take (k + 1)⟩ : String).length = (text.data.take (k + 1)).length :=
          rfl
        rw [this, List.length_take]
        omega
      · refine ⟨k, h1, h2, fun j hj1 hj2 => h3 j hj1 (by omega), ht, ?_⟩
        rw [ht]
        have hd : (⟨text.data.take (k + 1)⟩ : String).data = text.data.take (k + 1) := rfl
        rw [hd, List.getLastD_eq_getLast?, List.getLast?_eq_getElem?]
        have hlen2 : (text.data.take (k + 1)).length = k + 1 := by
          rw [List.length_take]
          omega
        rw [hlen2]
        simp only [Nat.add_sub_cancel]
        have hk : (text.data.take (k + 1))[k]? = text.data[k]? := by
          rw [List.getElem?_take]
          simp
        rw [hk]
        have hk2 : (text.data.take n)[k]? = text.data[k]? := by
          rw [List.getElem?_take, if_pos h1]
        rw [List.getD_eq_getElem?_getD, hk2] at h2
        exact h2

/-- Witness for the amended C6: a short text passes through unchanged,
and a truncated text ends at the last period within the limit. -/
theorem truncate_text_spec_witness :
    truncate_text "abc" 5 = "abc" ∧
    (truncate_text "Una frase. Una frase molto lunga" 15).data.getLastD ' ' = '.' ∧
    (truncate_text "Una frase. Una frase molto lunga" 15).length ≤ 18 := by
  refine ⟨(truncate_text_spec "abc" 5).2.1 (by decide), ?_,
    (truncate_text_spec "Una frase. Una frase molto lunga" 15).1⟩
  obtain ⟨k, _, _, _, _, h5⟩ :=
    (truncate_text_spec "Una frase. Una frase molto lunga" 15).2.2 (by decide) (by decide)
  exact h5

theorem filter_orderedInsert (q : ℚ) (a : String × ℚ) :
    ∀ l : List (String × ℚ),
      (List.orderedInsert scoreGE a l).filter (fun p => decide (p.2 = q)) =
        if a.2 = q then a :: l.filter (fun p => decide (p.2 = q))
        else l.filter (fun p => decide (p.2 = q)) := by
  intro l
  induction l with
  | nil =>
    simp only [List.orderedInsert_nil, List.filter_cons, List.filter_nil]
    by_cases h : a.2 = q <;> simp [h]
  | cons b l ih =>
    rw [List.orderedInsert]
    by_cases hr : scoreGE a b
    · rw [if_pos hr]
      simp only [List.filter_cons]
      by_cases h : a.2 = q <;> simp [h]
    · rw [if_neg hr]
      have hb : ¬b.2 ≤ a.2 := hr
      by_cases h : a.2 = q
      · have hbq : ¬b.2 = q := fun hh => hb (le_of_eq (hh.trans h.symm))
        simp [List.filter_cons, ih, h, hbq]
      · simp [List.filter_cons, ih, h]

theorem filter_insertionSort (q : ℚ) :
    ∀ l : List (String × ℚ),
      (List.insertionSort scoreGE l).filter (fun p => decide (p.2 = q)) =
        l.filter (fun p => decide (p.2 = q)) := by
  intro l
  induction l with
  | nil => rfl
  | cons a l ih =>
    rw [List.insertionSort, filter_orderedInsert, ih, List.filter_cons]
    by_cases h : a.2 = q <;> simp [h]

theorem chain'_imp_of_mem {α : Type} {S T : α → α → Prop} :
    ∀ {l : List α}, (∀ a ∈ l, ∀ b ∈ l, S a b → T a b) → List.Chain' S l →
      List.Chain' T l := by
  intro l
  induction l with
  | nil => intro _ _; exact List.chain'_nil
  | cons a l ih =>
    intro h hc
    cases l with
    | nil => simp
    | cons b l2 =>
      rw [List.chain'_cons] at hc ⊢
      refine ⟨h a (by simp) b (by simp) hc.1, ?_⟩
      exact ih (fun x hx y hy => h x (by simp [hx]) y (by simp [hy])) hc.2

attribute [local semireducible] Rat.mul Rat.add Rat.sub Rat.inv

set_option maxRecDepth 40000 in
/-- Counterexample to claim C5 as stated: the claim defines the score
mathematically as `min(5, length/50)` plus keyword/digit bonuses and
asserts that ties under that score keep their relative input order.
The program compares IEEE doubles: a 16-character item with keyword
score 2 and a 66-character item with keyword score 1 both have exact
score `2.32`, yet the double of the first is strictly below the double
of the second, so the selection reorders this "tie" regardless of
input order. -/
theorem exact_score_tie_reordered :
    ("visura xxxxxxxxxxxxxxxxxxxxxxxxxxxxxxxxxxxxxxxxxxxxxxxxxxxxxxxxxxx" : String).length =
      66 ∧
    itemScoreExact "documenti visura" =
      itemScoreExact "visura xxxxxxxxxxxxxxxxxxxxxxxxxxxxxxxxxxxxxxxxxxxxxxxxxxxxxxxxxxx" ∧
    itemScore "documenti visura" <
      itemScore "visura xxxxxxxxxxxxxxxxxxxxxxxxxxxxxxxxxxxxxxxxxxxxxxxxxxxxxxxxxxx" ∧
    2 < (["documenti visura",
      "visura xxxxxxxxxxxxxxxxxxxxxxxxxxxxxxxxxxxxxxxxxxxxxxxxxxxxxxxxxxx",
      "zz"] : List String).length ∧
    selectMostInformativeItems
      ["documenti visura",
        "visura xxxxxxxxxxxxxxxxxxxxxxxxxxxxxxxxxxxxxxxxxxxxxxxxxxxxxxxxxxx",
        "zz"] 2 =
      ["visura xxxxxxxxxxxxxxxxxxxxxxxxxxxxxxxxxxxxxxxxxxxxxxxxxxxxxxxxxxx",
        "documenti visura"] := by
  refine ⟨rfl, by decide, by decide, by decide, by decide⟩

/-- Claim C5 as amended: `_select_most_informative_items` passes
short-enough lists through unchanged; otherwise it returns at most
`maxItems` items, every one at least 15 characters long, ordered by
non-increasing computed score — the IEEE-double evaluation of
`min(5, length/50)` plus the keyword/digit bonuses, modelled by
`itemScore` — and the order is the stable descending sort of the
scored items by that computed score: some permutation `L` of the
scored list is sorted by descending computed score, preserves the
relative order of items with equal computed score (its filtrations at
each score value coincide with the input's), and the output is the
first `maxItems` item strings of `L`.  Items agreeing in length,
keyword count and digit presence always have equal computed scores, so
they genuinely keep input order; exact-score ties split by the double
rounding do not. -/
theorem select_most_informative_spec (items : List String) (maxItems : Nat) :
    (items.length ≤ maxItems → selectMostInformativeItems items maxItems = items) ∧
    (maxItems < items.length →
      (selectMostInformativeItems items maxItems).length ≤ maxItems ∧
      (∀ x ∈ selectMostInformativeItems items maxItems, 15 ≤ x.length) ∧
      List.Chain' (fun a b => itemScore b ≤ itemScore a)
        (selectMostInformativeItems items maxItems) ∧
      ∃ L : List (String × ℚ),
        L.Perm (scoredItems items) ∧
        List.Chain' (fun a b => b.2 ≤ a.2) L ∧
        (∀ q : ℚ, L.filter (fun p => decide (p.2 = q)) =
          (scoredItems items).filter (fun p => decide (p.2 = q))) ∧
        selectMostInformativeItems items maxItems = (L.take maxItems).map Prod.fst) := by
  constructor
  · intro h
    rw [selectMostInformativeItems]
    by_cases he : items.isEmpty
    · rw [if_pos he, List.isEmpty_iff.mp he]
    · rw [if_neg he, if_pos h]
  · intro h
    have he : ¬items.isEmpty = true := by
      intro contra
      rw [List.isEmpty_iff.mp contra] at h
      simp at h
    have hsel : selectMostInformativeItems items maxItems =
        (((scoredItems items).insertionSort scoreGE).take maxItems).map Prod.fst := by
      rw [selectMostInformativeItems, if_neg he, if_neg (not_le.mpr h)]
    have hperm : ((scoredItems items).insertionSort scoreGE).Perm (scoredItems items) :=
      List.perm_insertionSort _ _
    have hsorted : List.Sorted scoreGE ((scoredItems items).insertionSort scoreGE) :=
      List.sorted_insertionSort _ _
    have hchainL :
        List.Chain' (fun a b : String × ℚ => b.2 ≤ a.2)
          ((scoredItems items).insertionSort scoreGE) := hsorted.chain'
    have hmemL : ∀ p ∈ (scoredItems items).insertionSort scoreGE,
        15 ≤ p.1.length ∧ p.2 = itemScore p.1 := by
      intro p hp
      have hps : p ∈ scoredItems items := hperm.mem_iff.mp hp
      rw [scoredItems] at hps
      obtain ⟨s, hs, rfl⟩ := List.mem_map.mp hps
      exact ⟨by simpa using (List.mem_filter.mp hs).2, rfl⟩
    refine ⟨?_, ?_, ?_, (scoredItems items).insertionSort scoreGE, hperm, hchainL,
      fun q => filter_insertionSort q _, hsel⟩
    · rw [hsel, List.length_map, List.length_take]
      exact min_le_left _ _
    · intro x hx
      rw [hsel] at hx
      obtain ⟨p, hp, rfl⟩ := List.mem_map.mp hx
      exact (hmemL p (List.mem_of_mem_take hp)).1
    · rw [hsel, List.chain'_map]
      have htake : List.Chain' (fun a b : String × ℚ => b.2 ≤ a.2)
          (((scoredItems items).insertionSort scoreGE).take maxItems) :=
        hchainL.prefix (List.take_prefix _ _)
      refine chain'_imp_of_mem ?_ htake
      intro a ha b hb hS
      rw [← (hmemL a (List.mem_of_mem_take ha)).2, ← (hmemL b (List.mem_of_mem_take hb)).2]
      exact hS

/-- Witness for C5 on a four-item list with bound 2: the selection
keeps at most two items, each at least 15 characters long. -/
theorem select_most_informative_spec_witness :
    2 < (["ab", "documenti richiesti: visura", "testo informativo lungo 123",
      "cd"] : List String).length ∧
    (selectMostInformativeItems
      ["ab", "documenti richiesti: visura", "testo informativo lungo 123", "cd"] 2).length ≤ 2 ∧
    (∀ x ∈ selectMostInformativeItems
      ["ab", "documenti richiesti: visura", "testo informativo lungo 123", "cd"] 2,
      15 ≤ x.length) := by
  refine ⟨by decide, ?_, ?_⟩
  · exact ((select_most_informative_spec
      ["ab", "documenti richiesti: visura", "testo informativo lungo 123", "cd"] 2).2
      (by decide)).1
  · exact ((select_most_informative_spec
      ["ab", "documenti richiesti: visura", "testo informativo lungo 123", "cd"] 2).2
      (by decide)).2.1

theorem pyLines_ne_nil : ∀ l : List Char, pyLines l ≠ [] := by
  intro l
  cases l with
  | nil => simp [pyLines]
  | cons c cs =>
    rw [pyLines]
    by_cases h : c = '\n'
    · simp [h]
    · rw [if_neg h]
      cases hp : pyLines cs <;> simp

theorem pyLines_cons_newline (cs : List Char) : pyLines ('\n' :: cs) = [] :: pyLines cs := by
  rw [pyLines]
  simp

theorem pyLines_cons_other {c : Char} (h : ¬c = '\n') (cs : List Char) :
    pyLines (c :: cs) =
      match pyLines cs with
      | l :: ls => (c :: l) :: ls
      | [] => [[c]] := by
  rw [pyLines, if_neg h]

theorem pyLines_no_newline : ∀ l : List Char, (∀ c ∈ l, c ≠ '\n') → pyLines l = [l] := by
  intro l
  induction l with
  | nil => intro _; rfl
  | cons c cs ih =>
    intro h
    rw [pyLines_cons_other (h c (by simp)), ih fun x hx => h x (by simp [hx])]

theorem pyLines_append_no_newline :
    ∀ (xs ys : List Char), (∀ c ∈ ys, c ≠ '\n') →
      pyLines (xs ++ ys) = (pyLines xs).dropLast ++ [(pyLines xs).getLastD [] ++ ys] := by
  intro xs
  induction xs with
  | nil =>
    intro ys h
    rw [List.nil_append, pyLines_no_newline ys h]
    rfl
  | cons c xs ih =>
    intro ys h
    by_cases hc : c = '\n'
    · subst hc
      rw [List.cons_append, pyLines_cons_newline, pyLines_cons_newline, ih ys h]
      cases hp : pyLines xs with
      | nil => exact absurd hp (pyLines_ne_nil xs)
      | cons p ps =>
        simp [List.dropLast_cons₂, List.getLastD_cons]
    · rw [List.cons_append, pyLines_cons_other hc, pyLines_cons_other hc, ih ys h]
      cases hp : pyLines xs with
      | nil => exact absurd hp (pyLines_ne_nil xs)
      | cons p ps =>
        cases ps with
        | nil => simp
        | cons p2 ps2 => simp [List.dropLast_cons₂, List.getLastD_cons]

theorem pyLines_append_newline : ∀ l : List Char, pyLines (l ++ ['\n']) = pyLines l ++ [[]] := by
  intro l
  induction l with
  | nil => rfl
  | cons c cs ih =>
    by_cases hc : c = '\n'
    · subst hc
      rw [List.cons_append, pyLines_cons_newline, pyLines_cons_newline, ih]
      simp
    · rw [List.cons_append, pyLines_cons_other hc, pyLines_cons_other hc, ih]
      cases hp : pyLines cs with
      | nil => exact absurd hp (pyLines_ne_nil cs)
      | cons p ps =>
        simp

theorem joinSep_append_singleton (sep x : String) :
    ∀ l : List String, l ≠ [] → joinSep sep (l ++ [x]) = joinSep sep l ++ sep ++ x := by
  intro l
  induction l with
  | nil => intro h; exact absurd rfl h
  | cons y l ih =>
    intro _
    cases l with
    | nil => rfl
    | cons z l2 =>
      rw [List.cons_append, joinSep_cons _ _ _ (by simp), joinSep_cons _ _ _ (by simp),
        ih (by simp)]
      simp [String.append_assoc]

/-- Claim C10: the rendered summary is deterministic modulo the
trailing timestamp: for one record and two newline-free timestamps the
outputs agree on every line but the last, the last line of a non-empty
record's rendering is exactly the timestamp line, and the empty-dict
rendering does not depend on the timestamp at all. -/
theorem generate_summary_deterministic_mod_timestamp
    (gd : Option UnifiedRecord) (ts1 ts2 : String)
    (h1 : ∀ c ∈ ts1.data, c ≠ '\n') (h2 : ∀ c ∈ ts2.data, c ≠ '\n') :
    (pyLines (generate_summary gd ts1).data).dropLast =
      (pyLines (generate_summary gd ts2).data).dropLast ∧
    (∀ g, gd = some g →
      (pyLines (generate_summary gd ts1).data).getLastD [] =
        ("_Ultimo aggiornamento: " ++ ts1 ++ "_").data) ∧
    (gd = none → generate_summary gd ts1 = generate_summary gd ts2) := by
  cases gd with
  | none => exact ⟨rfl, fun g hg => absurd hg (by simp), fun _ => rfl⟩
  | some g =>
    obtain ⟨hd, tl, hht⟩ : ∃ hd tl, summaryParts g = hd :: tl := ⟨_, _, rfl⟩
    have hne : summaryParts g ≠ [] := by rw [hht]; simp
    have hgen : ∀ ts : String, generate_summary (some g) ts =
        joinSep "\n" (summaryParts g) ++ "\n" ++
          ("\n\n_Ultimo aggiornamento: " ++ ts ++ "_") := by
      intro ts
      have h0 : generate_summary (some g) ts =
          joinSep "\n" (summaryParts g ++ ["\n\n_Ultimo aggiornamento: " ++ ts ++ "_"]) := rfl
      rw [h0, joinSep_append_singleton _ _ _ hne]
    have hdata : ∀ ts : String, (generate_summary (some g) ts).data =
        ((joinSep "\n" (summaryParts g)).data ++ "\n".data ++
          "\n\n_Ultimo aggiornamento: ".data) ++ (ts.data ++ "_".data) := by
      intro ts
      rw [hgen ts]
      simp [String.data_append, List.append_assoc]
    have hys : ∀ (ts : String), (∀ c ∈ ts.data, c ≠ '\n') →
        ∀ c ∈ ts.data ++ "_".data, c ≠ '\n' := by
      intro ts hts c hc
      rcases List.mem_append.mp hc with h | h
      · exact hts c h
      · intro hcontra
        rw [hcontra] at h
        exact absurd h (by decide)
    have hlast : ((pyLines ((joinSep "\n" (summaryParts g)).data ++ "\n".data ++
        "\n\n_Ultimo aggiornamento: ".data)).getLastD []) =
        "_Ultimo aggiornamento: ".data := by
      have hsplit : (joinSep "\n" (summaryParts g)).data ++ "\n".data ++
          "\n\n_Ultimo aggiornamento: ".data =
          (((joinSep "\n" (summaryParts g)).data ++ "\n".data ++ ['\n']) ++ ['\n']) ++
            "_Ultimo aggiornamento: ".data := by
        have : ("\n\n_Ultimo aggiornamento: " : String).data =
            '\n' :: '\n' :: ("_Ultimo aggiornamento: " : String).data := rfl
        rw [this]
        simp
      rw [hsplit, pyLines_append_no_newline _ _ (by decide), pyLines_append_newline,
        List.getLastD_concat]
      simp
    refine ⟨?_, fun g2 hg2 => ?_, fun hcontra => absurd hcontra (by simp)⟩
    · rw [hdata ts1, hdata ts2,
        pyLines_append_no_newline _ _ (hys ts1 h1), pyLines_append_no_newline _ _ (hys ts2 h2),
        List.dropLast_concat, List.dropLast_concat]
    · rw [hdata ts1, pyLines_append_no_newline _ _ (hys ts1 h1), List.getLastD_concat, hlast]
      simp [String.data_append, List.append_assoc]

/-- Witness for C10: at the all-empty record and the timestamps "a"
and "b", the renderings agree on every line except the last. -/
theorem generate_summary_deterministic_witness :
    (∀ c ∈ ("a" : String).data, c ≠ '\n') ∧
    (pyLines (generate_summary (some emptyUnified) "a").data).dropLast =
      (pyLines (generate_summary (some emptyUnified) "b").data).dropLast ∧
    (pyLines (generate_summary (some emptyUnified) "a").data).getLastD [] =
      ("_Ultimo aggiornamento: " ++ "a" ++ "_").data := by
  refine ⟨by decide, ?_, ?_⟩
  · exact (generate_summary_deterministic_mod_timestamp (some emptyUnified) "a" "b"
      (by decide) (by decide)).1
  · exact (generate_summary_deterministic_mod_timestamp (some emptyUnified) "a" "b"
      (by decide) (by decide)).2.1 emptyUnified rfl

end GrantDoc
